import Mathlib

/-!
Shallow embedding of the pdf_render repository core: the font cache with
lazy parsing (src/font/allsorts.rs), the glyph collector and typesetting
(src/font/allsorts.rs), and the pagination / coordinate / text-emission
engine (src/render/context.rs).  Rust `f64` length units (`Unit`, `Em`,
`Pt`) are embedded as exact rationals `ℚ`; `u16` glyph ids as `Nat`
(a collector of `u16` values never exceeds 2^16 entries, so the
`as u16` cast of an `insert_full` index in the source is lossless).
-/

namespace PdfRender

/-- Glyph id, `u16` in the source. -/
abbrev GlyphId := Nat

/-- `layout::GlyphPosition`: per-glyph shaping result, advances and
offsets in em units (`Em` = f64, embedded as ℚ). -/
structure GlyphPosition where
  unicode : Option Nat
  glyph_index : GlyphId
  h_advance : ℚ
  v_advance : ℚ
  h_offset : ℚ
  v_offset : ℚ
deriving DecidableEq, Repr

/-- `layout::TextPosition`: the shaped-text measurement result. -/
structure TextPosition where
  width : ℚ
  height : ℚ
  depth : ℚ
  positions : List GlyphPosition
deriving DecidableEq, Repr

/-- `rtext::index_set::IndexSet<u16>` embedded as the insertion-ordered
list of its elements (the source type is an insertion-ordered set). -/
abbrev IndexSet := List GlyphId

/-- `IndexSet::insert_full`: returns the index of the element (its
position if already present, else the append position) and the set. -/
def insert_full (c : IndexSet) (g : GlyphId) : Nat × IndexSet :=
  if g ∈ c then (List.indexOf g c, c) else (c.length, c ++ [g])

/-- The glyph-rewriting loop of `Font::typeset_collect`
(src/font/allsorts.rs lines 244-248): for each produced glyph, insert
its original id into the collector and rewrite the id in the returned
position to the local (collector) id. -/
def collectRewrite : IndexSet → List GlyphPosition → IndexSet × List GlyphPosition
  | c, [] => (c, [])
  | c, p :: ps =>
    let r := insert_full c p.glyph_index
    let rest := collectRewrite r.2 ps
    (rest.1, { p with glyph_index := r.1 } :: rest.2)

/-- `Font::typeset_collect` restricted to the collector rewrite: the
shaping part (`self.typeset`) produced `tp`; the collector is updated
and the glyph ids in `tp.positions` are rewritten to local ids. -/
def typeset_collect (c : IndexSet) (tp : TextPosition) : IndexSet × TextPosition :=
  let r := collectRewrite c tp.positions
  (r.1, { tp with positions := r.2 })

/-- `RenderFont::new` (src/render/context.rs lines 25-34): a fresh glyph
collector seeded with glyph id 0. -/
def renderFontNewCollector : IndexSet := (insert_full [] 0).2

/-- Running a sequence of `typeset_collect` calls against one font's
collector, keeping only the collector (the claim's "sequence of typeset
calls against the same font"). -/
def runCollect (c : IndexSet) : List TextPosition → IndexSet
  | [] => c
  | tp :: tps => runCollect (typeset_collect c tp).1 tps

/- Helper lemmas about the collector. -/

theorem collectRewrite_prefix (ps : List GlyphPosition) :
    ∀ c : IndexSet, ∃ t, (collectRewrite c ps).1 = c ++ t := by
  induction ps with
  | nil => intro c; exact ⟨[], by simp [collectRewrite]⟩
  | cons p ps ih =>
    intro c
    simp only [collectRewrite]
    rcases ih (insert_full c p.glyph_index).2 with ⟨t, ht⟩
    by_cases hm : p.glyph_index ∈ c
    · exact ⟨t, by simpa [insert_full, hm] using ht⟩
    · exact ⟨[p.glyph_index] ++ t, by simpa [insert_full, hm] using ht⟩

theorem runCollect_prefix (tps : List TextPosition) :
    ∀ c : IndexSet, ∃ t, runCollect c tps = c ++ t := by
  induction tps with
  | nil => intro c; exact ⟨[], by simp [runCollect]⟩
  | cons tp tps ih =>
    intro c
    rcases collectRewrite_prefix tp.positions c with ⟨t₁, ht₁⟩
    rcases ih (typeset_collect c tp).1 with ⟨t₂, ht₂⟩
    refine ⟨t₁ ++ t₂, ?_⟩
    rw [runCollect, ht₂]
    simp [typeset_collect, ht₁]

/-- An id already present keeps its index under any later growth of the
collector (the collector only ever grows by appending). -/
theorem indexOf_append_stable (c t : IndexSet) (g : GlyphId) (h : g ∈ c) :
    List.indexOf g (c ++ t) = List.indexOf g c :=
  List.indexOf_append_of_mem h

/-- Core invariant: if the final collector extends the collector the
rewrite ran on, every rewritten glyph id equals the index of the
original id in the final collector. -/
theorem collectRewrite_map (ps : List GlyphPosition) :
    ∀ c cfin : IndexSet, (∃ t, cfin = (collectRewrite c ps).1 ++ t) →
    (collectRewrite c ps).2 =
      ps.map (fun p => { p with glyph_index := List.indexOf p.glyph_index cfin }) := by
  induction ps with
  | nil => intro c cfin _; simp [collectRewrite]
  | cons p ps ih =>
    intro c cfin hext
    rcases hext with ⟨t, ht⟩
    simp only [collectRewrite] at ht
    simp only [collectRewrite, List.map_cons, List.cons_eq_cons]
    constructor
    · -- the head: the assigned id is the index in the final collector
      by_cases hm : p.glyph_index ∈ c
      · -- element already present at indexOf in c, stable under growth
        rcases collectRewrite_prefix ps (insert_full c p.glyph_index).2 with ⟨t₂, ht₂⟩
        have hc2 : (insert_full c p.glyph_index).2 = c := by simp [insert_full, hm]
        have hfin : cfin = c ++ (t₂ ++ t) := by
          rw [ht, ht₂, hc2, List.append_assoc]
        have : List.indexOf p.glyph_index cfin = List.indexOf p.glyph_index c := by
          rw [hfin]; exact indexOf_append_stable c (t₂ ++ t) _ hm
        simp [insert_full, hm, this]
      · -- fresh element appended at position c.length
        rcases collectRewrite_prefix ps (insert_full c p.glyph_index).2 with ⟨t₂, ht₂⟩
        have hc2 : (insert_full c p.glyph_index).2 = c ++ [p.glyph_index] := by
          simp [insert_full, hm]
        have hfin : cfin = (c ++ [p.glyph_index]) ++ (t₂ ++ t) := by
          rw [ht, ht₂, hc2, List.append_assoc]
        have hmem : p.glyph_index ∈ c ++ [p.glyph_index] := by simp
        have h1 : List.indexOf p.glyph_index cfin
            = List.indexOf p.glyph_index (c ++ [p.glyph_index]) := by
          rw [hfin]; exact indexOf_append_stable _ _ _ hmem
        have h2 : List.indexOf p.glyph_index (c ++ [p.glyph_index]) = c.length := by
          rw [List.indexOf_append_of_not_mem hm]; simp
        simp [insert_full, hm, h1, h2]
    · -- the tail, by the induction hypothesis
      exact ih (insert_full c p.glyph_index).2 cfin ⟨t, ht⟩

theorem mem_of_mem_runCollect_start (c : IndexSet) (tps : List TextPosition)
    (g : GlyphId) (h : g ∈ c) : g ∈ runCollect c tps := by
  rcases runCollect_prefix tps c with ⟨t, ht⟩
  rw [ht]; exact List.mem_append_left t h

/-- The collector of one font after the document's typeset calls
`doc₁ ++ [tp] ++ doc₂`, starting from a fresh `RenderFont` collector. -/
def finalCollector (doc₁ : List TextPosition) (tp : TextPosition)
    (doc₂ : List TextPosition) : IndexSet :=
  runCollect (typeset_collect (runCollect renderFontNewCollector doc₁) tp).1 doc₂

/-- C2: within one document, across any sequence of typeset calls
`doc₁ ++ [tp] ++ doc₂` against the same font starting from a fresh
`RenderFont` collector: (a) every glyph id in the call `tp` is rewritten
to the index at which the original id sits in the final collector — i.e.
each distinct original id has exactly one local id, the position of its
first insertion, never renumbered by later insertions; and (b) glyph id
0 maps to local id 0 in the final collector. -/
theorem typeset_collect_local_ids (doc₁ doc₂ : List TextPosition) (tp : TextPosition) :
    ((typeset_collect (runCollect renderFontNewCollector doc₁) tp).2).positions =
      tp.positions.map (fun p =>
        { p with glyph_index := List.indexOf p.glyph_index (finalCollector doc₁ tp doc₂) })
    ∧ List.indexOf 0 (finalCollector doc₁ tp doc₂) = 0 := by
  have hext : ∃ t, finalCollector doc₁ tp doc₂ =
      (collectRewrite (runCollect renderFontNewCollector doc₁) tp.positions).1 ++ t := by
    rcases runCollect_prefix doc₂
        (typeset_collect (runCollect renderFontNewCollector doc₁) tp).1 with ⟨t, ht⟩
    exact ⟨t, by simpa [finalCollector, typeset_collect] using ht⟩
  constructor
  · simpa [typeset_collect] using
      collectRewrite_map tp.positions (runCollect renderFontNewCollector doc₁)
        (finalCollector doc₁ tp doc₂) hext
  · -- 0 is the first element of the fresh collector and stays at index 0
    have h0seed : renderFontNewCollector = [0] := by decide
    rcases runCollect_prefix doc₁ renderFontNewCollector with ⟨t₁, ht₁⟩
    rcases hext with ⟨t₂, ht₂⟩
    rcases collectRewrite_prefix tp.positions (runCollect renderFontNewCollector doc₁)
      with ⟨t₃, ht₃⟩
    have hfin : finalCollector doc₁ tp doc₂ = [0] ++ (t₁ ++ (t₃ ++ t₂)) := by
      rw [ht₂, ht₃, ht₁, h0seed]
      simp [List.append_assoc]
    rw [hfin]
    simp

/-! ## Font cache (src/font/allsorts.rs, `FontCache`)

The cache maps names to `CachedFont { source, parsed }`.  Parsing
(`CachedAllsortsFont::from_source`) is abstracted as an explicit
function argument `parse : ParseFn` so a parse invocation is
observable: the cache state carries a `parseCount` incremented exactly
when `parse` is invoked.  The `RwLock`/lock-poisoning outcomes are
passed as explicit boolean arguments (`lockOk`). -/

/-- The variants of `layout::Error` raised by the font cache. -/
inductive FcError where
  | unknownFont (name : String)
  | malformedFont (name : String)
  | lockError
deriving DecidableEq, Repr

/-- A parsed font handle; it records the source bytes it was parsed
from (the real handle borrows them for its lifetime). -/
structure ParsedFont where
  bytes : List Nat
deriving DecidableEq, Repr

/-- `CachedFont { source, parsed }`. -/
structure CachedFont where
  source : List Nat
  parsed : Option ParsedFont
deriving DecidableEq, Repr

/-- The map behind `FontCache.inner`, as an association list, plus the
instrumentation counter of parse invocations. -/
structure Cache where
  entries : List (String × CachedFont)
  parseCount : Nat
deriving DecidableEq, Repr

/-- Abstracted `CachedAllsortsFont::from_source` on the source bytes. -/
abbrev ParseFn := List Nat → Except FcError ParsedFont

/-- `HashMap::get` on the entries. -/
def lookupA (l : List (String × CachedFont)) (n : String) : Option CachedFont :=
  (l.find? (fun e => e.1 == n)).map (fun e => e.2)

/-- In-place overwrite of the entry under `n`. -/
def updateA (l : List (String × CachedFont)) (n : String) (cf : CachedFont) :
    List (String × CachedFont) :=
  l.map (fun e => if e.1 == n then (n, cf) else e)

def lookupEntry (c : Cache) (n : String) : Option CachedFont :=
  lookupA c.entries n

/-- `FontCache::remove` (lines 43-53): take the write lock; on success
remove the entry and report whether it was present; on lock failure
return `false` (the error is swallowed). -/
def removeFc (lockOk : Bool) (c : Cache) (n : String) : Bool × Cache :=
  if lockOk then
    ((lookupEntry c n).isSome,
      { c with entries := c.entries.filter (fun e => !(e.1 == n)) })
  else (false, c)

/-- `FontCache::add_cow` (lines 71-99): occupied entry is overwritten
(with the parse dropped) only when `rep` is set; a vacant entry is
inserted; lock failure is `LockError`. -/
def add_cow (lockOk : Bool) (c : Cache) (n : String) (src : List Nat) (rep : Bool) :
    Except FcError Cache :=
  if lockOk then
    match lookupEntry c n with
    | some _ =>
      if rep then .ok { c with entries := updateA c.entries n ⟨src, none⟩ }
      else .ok c
    | none => .ok { c with entries := c.entries ++ [(n, ⟨src, none⟩)] }
  else .error .lockError

/-- `FontCache::add`. -/
def addFc (lockOk : Bool) (c : Cache) (n : String) (src : List Nat) :
    Except FcError Cache :=
  add_cow lockOk c n src false

/-- `FontCache::replace`. -/
def replaceFc (lockOk : Bool) (c : Cache) (n : String) (src : List Nat) :
    Except FcError Cache :=
  add_cow lockOk c n src true

/-- The read-locked phase of `FontCache::get` (lines 104-117): `none`
means "no cached parse, fall through to the write-locked phase". -/
def getReadPhase (c : Cache) (n : String) : Option (Except FcError ParsedFont) :=
  match lookupEntry c n with
  | none => some (.error (.unknownFont n))
  | some cf => cf.parsed.map Except.ok

/-- The write-locked phase of `FontCache::get` (lines 119-132): look the
entry up again (`get_mut`), then parse the source *unconditionally* —
the source has no `parsed`-presence re-check — and store the new parse. -/
def getWritePhase (parse : ParseFn) (c : Cache) (n : String) :
    Except FcError ParsedFont × Cache :=
  match lookupEntry c n with
  | none => (.error (.unknownFont n), c)
  | some cf =>
    let c₁ : Cache := { c with parseCount := c.parseCount + 1 }
    match parse cf.source with
    | .error e => (.error e, c₁)
    | .ok p =>
      (.ok p, { c₁ with entries := updateA c₁.entries n { cf with parsed := some p } })

/-- `FontCache::get`: sequential composition of the two phases, with the
two lock acquisitions passed as explicit outcomes. -/
def getFc (parse : ParseFn) (readLockOk writeLockOk : Bool) (c : Cache) (n : String) :
    Except FcError ParsedFont × Cache :=
  if readLockOk then
    match getReadPhase c n with
    | some r => (r, c)
    | none =>
      if writeLockOk then getWritePhase parse c n
      else (.error .lockError, c)
  else (.error .lockError, c)

/- Association-list lemmas. -/

theorem lookupA_updateA_self (l : List (String × CachedFont)) (n : String)
    (cf cf' : CachedFont) (h : lookupA l n = some cf) :
    lookupA (updateA l n cf') n = some cf' := by
  induction l with
  | nil => simp [lookupA] at h
  | cons e l ih =>
    cases hbe : (e.1 == n) with
    | true => simp [lookupA, updateA, List.find?, hbe]
    | false =>
      have h' : lookupA l n = some cf := by
        simpa [lookupA, List.find?, hbe] using h
      simpa [lookupA, updateA, List.find?, hbe] using ih h'

theorem lookupA_filter_ne (l : List (String × CachedFont)) (n : String) :
    lookupA (l.filter (fun e => !(e.1 == n))) n = none := by
  induction l with
  | nil => simp [lookupA]
  | cons e l ih =>
    cases hbe : (e.1 == n) with
    | true => simp [List.filter_cons, hbe, ih]
    | false => simp [List.filter_cons, lookupA, List.find?, hbe, ih]

theorem lookupA_append_of_none (l : List (String × CachedFont)) (n : String)
    (cf : CachedFont) (h : lookupA l n = none) :
    lookupA (l ++ [(n, cf)]) n = some cf := by
  induction l with
  | nil => simp [lookupA, List.find?]
  | cons e l ih =>
    cases hbe : (e.1 == n) with
    | true => simp [lookupA, List.find?, hbe] at h
    | false =>
      have h' : lookupA l n = none := by
        simpa [lookupA, List.find?, hbe] using h
      simpa [lookupA, List.find?, hbe] using ih h'

/- Behavior lemmas on the write phase. -/

theorem getWritePhase_parseCount (parse : ParseFn) (c : Cache) (n : String)
    (cf : CachedFont) (h : lookupEntry c n = some cf) :
    (getWritePhase parse c n).2.parseCount = c.parseCount + 1 := by
  simp only [getWritePhase, h]
  cases parse cf.source <;> simp

theorem getWritePhase_lookup (parse : ParseFn) (c : Cache) (n : String)
    (cf : CachedFont) (h : lookupEntry c n = some cf) :
    ∃ cf', lookupEntry (getWritePhase parse c n).2 n = some cf' := by
  simp only [getWritePhase, h]
  cases hp : parse cf.source with
  | error e => exact ⟨cf, by simpa [lookupEntry] using h⟩
  | ok p =>
    exact ⟨{ cf with parsed := some p }, by
      simpa [lookupEntry] using lookupA_updateA_self c.entries n cf _ h⟩

theorem getWritePhase_fst (parse : ParseFn) (c : Cache) (n : String)
    (cf : CachedFont) (h : lookupEntry c n = some cf) :
    (getWritePhase parse c n).1 = parse cf.source := by
  simp only [getWritePhase, h]
  cases parse cf.source <;> simp

/-- Concrete cache whose single entry `"f"` has not been parsed yet. -/
def cacheNoParse : Cache := ⟨[("f", ⟨[1, 2, 3], none⟩)], 0⟩

/-- Concrete cache whose single entry `"f"` already carries a cached
parse of the (stale-looking) bytes `[9]`. -/
def cacheWithParse : Cache := ⟨[("f", ⟨[1, 2, 3], some ⟨[9]⟩⟩)], 0⟩

/-- A parse function that always succeeds, wrapping the bytes. -/
def okParse : ParseFn := fun bs => .ok ⟨bs⟩

/-- The cache state after a first successful `get "f"` on
`cacheNoParse` with `okParse`: parse stored, one parse counted. -/
def cacheAfterGet : Cache := ⟨[("f", ⟨[1, 2, 3], some ⟨[1, 2, 3]⟩⟩)], 1⟩

/-- C1, counterexample: the write-locked phase of `get` does *not*
re-check.  On a cache where a parse for `"f"` is already present, the
write phase parses again (the parse count rises from 0 to 1) and
returns the freshly parsed data, not the cached parse; and two
concurrent first calls that both miss in the read-locked phase each
parse the source — two parses, not exactly one. -/
theorem fontCache_get_recheck_counterexample :
    lookupEntry cacheWithParse "f" = some ⟨[1, 2, 3], some ⟨[9]⟩⟩
    ∧ (getWritePhase okParse cacheWithParse "f").2.parseCount = 1
    ∧ (getWritePhase okParse cacheWithParse "f").1 = .ok ⟨[1, 2, 3]⟩
    ∧ (⟨[1, 2, 3]⟩ : ParsedFont) ≠ ⟨[9]⟩
    ∧ getReadPhase cacheNoParse "f" = none
    ∧ (getWritePhase okParse ((getWritePhase okParse cacheNoParse "f").2) "f").2.parseCount
        = 2 := by
  refine ⟨rfl, rfl, rfl, ?_, rfl, rfl⟩
  decide

/-- C1, amended: `get` misses in the read-locked phase only when no
parse is cached, then parses under the exclusive lock *without*
re-checking (every write phase on a registered name invokes the parser,
and two serialized write phases invoke it twice — so concurrent first
calls may parse more than once, the last parse being the one cached);
still, two sequential `get` calls return handles of the same parsed
data: a successful `get` leaves a state in which `get` returns the very
same parse without touching the cache again. -/
theorem fontCache_get_amended (parse : ParseFn) (c : Cache) (n : String) :
    (∀ p c', getFc parse true true c n = (.ok p, c') →
      getFc parse true true c' n = (.ok p, c'))
    ∧ (∀ cf, lookupEntry c n = some cf →
      (getWritePhase parse c n).2.parseCount = c.parseCount + 1)
    ∧ (∀ cf, lookupEntry c n = some cf →
      (getWritePhase parse ((getWritePhase parse c n).2) n).2.parseCount
        = c.parseCount + 2) := by
  refine ⟨?_, ?_, ?_⟩
  · intro p c' h
    simp only [getFc, if_true] at h ⊢
    cases hr : getReadPhase c n with
    | some r =>
      rw [hr] at h
      rcases h with ⟨rfl, rfl⟩
      rw [hr]
    | none =>
      rw [hr] at h
      simp only [getWritePhase] at h
      cases hl : lookupEntry c n with
      | none => simp only [hl] at h; simp at h
      | some cf =>
        simp only [hl] at h
        cases hp : parse cf.source with
        | error e => simp only [hp] at h; simp at h
        | ok q =>
          simp only [hp] at h
          simp only [Prod.mk.injEq, Except.ok.injEq] at h
          rcases h with ⟨rfl, hcc⟩
          have hl' : lookupEntry c' n = some { cf with parsed := some q } := by
            rw [← hcc]
            simpa [lookupEntry] using lookupA_updateA_self c.entries n cf _ hl
          have hrp : getReadPhase c' n = some (.ok q) := by
            simp [getReadPhase, hl']
          rw [hrp]
  · intro cf h
    exact getWritePhase_parseCount parse c n cf h
  · intro cf h
    obtain ⟨cf', hl'⟩ := getWritePhase_lookup parse c n cf h
    have h1 := getWritePhase_parseCount parse c n cf h
    have h2 := getWritePhase_parseCount parse _ n cf' hl'
    omega

/-- C1, witness: on the one-entry concrete cache, a second sequential
`get` after a successful first one returns the same parse and leaves
the state untouched, and the write phase counts exactly one parse. -/
theorem fontCache_get_amended_witness :
    getFc okParse true true cacheAfterGet "f" = (.ok ⟨[1, 2, 3]⟩, cacheAfterGet)
    ∧ (getWritePhase okParse cacheNoParse "f").2.parseCount
        = cacheNoParse.parseCount + 1 := by
  obtain ⟨ha, hb, _⟩ := fontCache_get_amended okParse cacheNoParse "f"
  exact ⟨ha ⟨[1, 2, 3]⟩ cacheAfterGet rfl, hb ⟨[1, 2, 3], none⟩ rfl⟩

/-- Cache state after `replace "f" [7, 7]` on `cacheWithParse`: the
source is overwritten and the cached parse dropped. -/
def cacheAfterReplace : Cache := ⟨[("f", ⟨[7, 7], none⟩)], 0⟩

/-- C7: `add` on an existing name leaves the entry — including its
cached parse — unchanged; `replace` always stores the new source with
the cached parse dropped, so a subsequent `get` parses exactly the new
bytes (its result is the parse of the new source, never stale data). -/
theorem add_replace_spec (c : Cache) (n : String) (src : List Nat) (parse : ParseFn) :
    (∀ cf, lookupEntry c n = some cf → addFc true c n src = .ok c)
    ∧ (∀ c', replaceFc true c n src = .ok c' →
        lookupEntry c' n = some ⟨src, none⟩
        ∧ (getFc parse true true c' n).1 = parse src) := by
  constructor
  · intro cf h
    simp [addFc, add_cow, h]
  · intro c' h
    have hl : lookupEntry c' n = some ⟨src, none⟩ := by
      simp only [replaceFc, add_cow, if_true] at h
      cases hcl : lookupEntry c n with
      | some cf =>
        rw [hcl] at h
        simp only [if_true, Except.ok.injEq] at h
        rw [← h]
        simpa [lookupEntry] using lookupA_updateA_self c.entries n cf _ hcl
      | none =>
        rw [hcl] at h
        simp only [Except.ok.injEq] at h
        rw [← h]
        simpa [lookupEntry] using
          lookupA_append_of_none c.entries n ⟨src, none⟩ hcl
    have hrp : getReadPhase c' n = none := by simp [getReadPhase, hl]
    refine ⟨hl, ?_⟩
    simp only [getFc, if_true, hrp]
    exact getWritePhase_fst parse c' n ⟨src, none⟩ hl

/-- C7, witness: concrete add-then-replace-then-get on the one-entry
cache: `add` keeps the old entry with its cached parse; after `replace`
the entry holds the new bytes unparsed and `get` returns their parse. -/
theorem add_replace_spec_witness :
    addFc true cacheWithParse "f" [7, 7] = .ok cacheWithParse
    ∧ lookupEntry cacheAfterReplace "f" = some ⟨[7, 7], none⟩
    ∧ (getFc okParse true true cacheAfterReplace "f").1 = okParse [7, 7] := by
  obtain ⟨h1, h2⟩ := add_replace_spec cacheWithParse "f" [7, 7] okParse
  exact ⟨h1 ⟨[1, 2, 3], some ⟨[9]⟩⟩ rfl, (h2 cacheAfterReplace rfl).1,
    (h2 cacheAfterReplace rfl).2⟩

/-- C9: `remove` under a successfully acquired lock returns `true`
exactly when an entry was registered under the name and removes it; on
lock failure it returns `false` with the cache untouched, whereas
`add`/`replace` report `LockError` on lock failure and so does `get`
(on read-lock failure always, on write-lock failure whenever the
read-locked phase did not settle the call). -/
theorem remove_lock_spec (c : Cache) (n : String) (src : List Nat)
    (rep : Bool) (parse : ParseFn) (wl : Bool) :
    ((removeFc true c n).1 = true ↔ ∃ cf, lookupEntry c n = some cf)
    ∧ lookupEntry (removeFc true c n).2 n = none
    ∧ removeFc false c n = (false, c)
    ∧ add_cow false c n src rep = .error .lockError
    ∧ getFc parse false wl c n = (.error .lockError, c)
    ∧ (getReadPhase c n = none →
        (getFc parse true false c n).1 = .error .lockError) := by
  refine ⟨?_, ?_, rfl, rfl, rfl, ?_⟩
  · simp [removeFc, Option.isSome_iff_exists]
  · simpa [removeFc, lookupEntry] using lookupA_filter_ne c.entries n
  · intro h
    simp [getFc, h]

/-- C9, witness: on the concrete unparsed cache, removal reports the
entry present, a lock failure makes `remove` return `false` while `get`
with a failing write lock reports `LockError`. -/
theorem remove_lock_spec_witness :
    ((removeFc true cacheNoParse "f").1 = true ↔
      ∃ cf, lookupEntry cacheNoParse "f" = some cf)
    ∧ removeFc false cacheNoParse "f" = (false, cacheNoParse)
    ∧ (getFc okParse true false cacheNoParse "f").1 = .error .lockError := by
  obtain ⟨h1, _, h3, _, _, h6⟩ :=
    remove_lock_spec cacheNoParse "f" [] false okParse false
  exact ⟨h1, h3, h6 rfl⟩

/-! ## Pagination / coordinate engine (src/render/context.rs)

`layout::unit::Unit` and `layout::position::{Offset, Quad, Size}` are
external-crate value types embedded over exact rationals; the
`RenderContext` page fields become `PageState`, with an added counter
of `add_page` calls so that "a new page is started" is observable. -/

/-- `layout::position::Offset`. -/
structure Offset where
  x : ℚ
  y : ℚ
deriving DecidableEq, Repr

/-- `layout::position::Size` (fixed sizes only, as used here). -/
structure Size where
  width : ℚ
  height : ℚ
deriving DecidableEq, Repr

/-- `layout::position::Quad` (margins on the four sides). -/
structure Quad where
  left : ℚ
  top : ℚ
  right : ℚ
  bottom : ℚ
deriving DecidableEq, Repr

/-- Modelled from the spec: `Quad::width` of the external `layout`
crate — the total horizontal extent taken by the margin quad. -/
def Quad.totalWidth (q : Quad) : ℚ := q.left + q.right

/-- Modelled from the spec: `Quad::height` of the external `layout`
crate — the total vertical extent taken by the margin quad. -/
def Quad.totalHeight (q : Quad) : ℚ := q.top + q.bottom

/-- Modelled from the spec: `Quad::offset` of the external `layout`
crate — step (2) of the coordinate transform, offsetting a content
position by the margin's top-left corner. -/
def Quad.marginOffset (q : Quad) (o : Offset) : Offset := ⟨o.x + q.left, o.y + q.top⟩

/-- The pagination fields of `RenderContext`, plus a page counter for
the `document.add_page` calls. -/
structure PageState where
  page_margin : Quad
  page_size : Size
  page_start : Option Offset
  page_end : Option Offset
  pages : Nat
deriving DecidableEq, Repr

/-- `RenderContext::set_page_offsets` (lines 249-258). -/
def set_page_offsets (st : PageState) (content_offset : ℚ) : PageState :=
  let page_start : Offset := ⟨0, content_offset⟩
  let page_end : Offset :=
    ⟨page_start.x + (st.page_size.width - st.page_margin.totalWidth),
     page_start.y + (st.page_size.height - st.page_margin.totalHeight)⟩
  { st with page_start := some page_start, page_end := some page_end }

/-- `RenderContext::new_page_internal` (lines 193-212): optionally
change geometry, clear the content window, add a page. -/
def new_page_internal (st : PageState) (margin : Option Quad) (size : Option Size) :
    PageState :=
  let st₁ := match margin with
    | some m => { st with page_margin := m }
    | none => st
  let st₂ := match size with
    | some s => { st₁ with page_size := s }
    | none => st₁
  { st₂ with page_start := none, page_end := none, pages := st₂.pages + 1 }

/-- `RenderContext::check_page_break` (lines 214-247). -/
def check_page_break (st : PageState) (content_offset content_height : ℚ) :
    Bool × PageState :=
  let pair : Bool × PageState :=
    match st.page_end with
    | some page_end =>
      if content_offset + content_height > page_end.y then
        (true, new_page_internal st none none)
      else (false, st)
    | none => (false, st)
  if pair.2.page_start.isNone then
    (pair.1, set_page_offsets pair.2 content_offset)
  else pair

/-- `RenderContext::page_content_offset` (lines 182-187): step (1) of
the transform, subtracting the content window's start offset. -/
def page_content_offset (st : PageState) (content_offset : Offset) : Offset :=
  match st.page_start with
  | some page_start => ⟨content_offset.x - page_start.x, content_offset.y - page_start.y⟩
  | none => content_offset

/-- `RenderContext::swap_y` (lines 189-191): step (3), the y-flip
against the full page height. -/
def swap_y (st : PageState) (page_position : Offset) : Offset :=
  ⟨page_position.x, st.page_size.height - page_position.y⟩

/-- The content-to-output transform as applied to every placement:
subtract the window start, add the margin, flip y. -/
def toOutput (st : PageState) (content_offset : Offset) : Offset :=
  swap_y st (st.page_margin.marginOffset (page_content_offset st content_offset))

/-- The inverse transform: un-flip y, subtract the margin, re-add the
window start. -/
def fromOutput (st : PageState) (out : Offset) : Offset :=
  let p : Offset := ⟨out.x, st.page_size.height - out.y⟩
  let c : Offset := ⟨p.x - st.page_margin.left, p.y - st.page_margin.top⟩
  match st.page_start with
  | some page_start => ⟨c.x + page_start.x, c.y + page_start.y⟩
  | none => c

/-- The page state `RenderContext::new` produces for a 210mm×297mm page
with zero margin (it ends with `set_page_offsets(0)`). -/
def a4ZeroMargin : PageState :=
  set_page_offsets ⟨⟨0, 0, 0, 0⟩, ⟨210, 297⟩, none, none, 0⟩ 0

/-- C4: the three-step content-to-output transform is invertible — for
every page state, converting a content offset to output coordinates and
back reproduces it exactly; and on a 210mm×297mm page with zero margin
content (10mm, 20mm) maps to output (10mm, 277mm). -/
theorem transform_round_trip (st : PageState) (content_offset : Offset) :
    fromOutput st (toOutput st content_offset) = content_offset
    ∧ toOutput a4ZeroMargin ⟨10, 20⟩ = ⟨10, 277⟩ := by
  constructor
  · cases hps : st.page_start with
    | none =>
      simp only [toOutput, fromOutput, swap_y, Quad.marginOffset, page_content_offset, hps]
      cases content_offset with
      | mk x y =>
        simp only [Offset.mk.injEq]
        constructor <;> ring
    | some page_start =>
      simp only [toOutput, fromOutput, swap_y, Quad.marginOffset, page_content_offset, hps]
      cases content_offset with
      | mk x y =>
        cases page_start with
        | mk px py =>
          simp only [Offset.mk.injEq]
          constructor <;> ring
  · simp only [toOutput, a4ZeroMargin, set_page_offsets, swap_y, Quad.marginOffset,
      page_content_offset, Quad.totalWidth, Quad.totalHeight, Offset.mk.injEq]
    norm_num

/-- A page state whose content window end sits at content-y 700
(`set_page_offsets 0` on a 700-high page with zero margin). -/
def windowEnd700 : PageState :=
  set_page_offsets ⟨⟨0, 0, 0, 0⟩, ⟨210, 700⟩, none, none, 0⟩ 0

/-- C3: with a content-window end established, `check_page_break`
starts a new page exactly when `offset + height` strictly exceeds the
window end (equality does not break); on a break the window is cleared
by `new_page_internal` and, the window then being absent, the same call
re-establishes it at the given offset; and whenever no content window
exists the call establishes it at the given offset. -/
theorem check_page_break_fst (st : PageState) (off h : ℚ) :
    (check_page_break st off h).1 =
      match st.page_end with
      | some pe => decide (pe.y < off + h)
      | none => false := by
  cases hpe : st.page_end with
  | none =>
    simp only [check_page_break, hpe]
    by_cases hps : st.page_start.isNone <;> simp [hps]
  | some pe =>
    by_cases hcmp : off + h > pe.y
    · simp only [check_page_break, hpe, if_pos hcmp]
      simp [new_page_internal, hcmp]
    · simp only [check_page_break, hpe, if_neg hcmp]
      by_cases hps : st.page_start.isNone <;> simp [hps, hcmp]

theorem check_page_break_break (st : PageState) (off h : ℚ) (pe : Offset)
    (hpe : st.page_end = some pe) (hlt : pe.y < off + h) :
    check_page_break st off h =
      (true, set_page_offsets (new_page_internal st none none) off) := by
  simp only [check_page_break, hpe, if_pos hlt]
  simp [new_page_internal]

theorem check_page_break_establish (st : PageState) (off h : ℚ)
    (hps : st.page_start = none) (hpe : st.page_end = none) :
    check_page_break st off h = (false, set_page_offsets st off) := by
  simp [check_page_break, hpe, hps]

/-- C3: with a content-window end established, `check_page_break`
starts a new page exactly when `offset + height` strictly exceeds the
window end (equality does not break); on a break the window is cleared
by `new_page_internal` and, the window then being absent, the same call
re-establishes it at the given offset; and whenever no content window
exists the call establishes it at the given offset. -/
theorem check_page_break_spec (st : PageState) (off h : ℚ) :
    ((check_page_break st off h).1 = true ↔
      ∃ pe, st.page_end = some pe ∧ pe.y < off + h)
    ∧ ((check_page_break st off h).1 = true →
        (new_page_internal st none none).page_start = none
        ∧ (new_page_internal st none none).page_end = none
        ∧ (check_page_break st off h).2.page_start = some ⟨0, off⟩
        ∧ (check_page_break st off h).2.pages = st.pages + 1)
    ∧ (st.page_start = none → st.page_end = none →
        (check_page_break st off h).2 = set_page_offsets st off) := by
  refine ⟨?_, ?_, fun hps hpe => by rw [check_page_break_establish st off h hps hpe]⟩
  · rw [check_page_break_fst]
    cases hpe : st.page_end with
    | none => simp
    | some pe => simp
  · intro hb
    rw [check_page_break_fst] at hb
    cases hpe : st.page_end with
    | none => rw [hpe] at hb; simp at hb
    | some pe =>
      rw [hpe] at hb
      simp only [decide_eq_true_eq] at hb
      rw [check_page_break_break st off h pe hpe hb]
      refine ⟨by simp [new_page_internal], by simp [new_page_internal], ?_, ?_⟩
      · simp [set_page_offsets]
      · simp [set_page_offsets, new_page_internal]

/-- C3, witness: with the window end at 700, a placement at 680 of
height 30 breaks (710 > 700), at 650 of height 30 it does not
(680 ≤ 700), at 670 of height 30 (exactly 700) it does not; the break
re-establishes the window at offset 680. -/
theorem check_page_break_spec_witness :
    (check_page_break windowEnd700 680 30).1 = true
    ∧ (check_page_break windowEnd700 650 30).1 = false
    ∧ (check_page_break windowEnd700 670 30).1 = false
    ∧ (check_page_break windowEnd700 680 30).2.page_start = some ⟨0, 680⟩ := by
  have h680 := check_page_break_spec windowEnd700 680 30
  have h650 := check_page_break_spec windowEnd700 650 30
  have h670 := check_page_break_spec windowEnd700 670 30
  have hend : windowEnd700.page_end = some ⟨210, 700⟩ := by
    simp only [windowEnd700, set_page_offsets, Quad.totalWidth, Quad.totalHeight,
      Option.some.injEq, Offset.mk.injEq]
    norm_num
  have hb : (check_page_break windowEnd700 680 30).1 = true :=
    h680.1.mpr ⟨⟨210, 700⟩, hend, by norm_num⟩
  refine ⟨hb, ?_, ?_, (h680.2.1 hb).2.2.1⟩
  · cases hq : (check_page_break windowEnd700 650 30).1 with
    | false => rfl
    | true =>
      exfalso
      rcases h650.1.mp hq with ⟨pe, hpe, hlt⟩
      rw [hend] at hpe
      cases hpe
      norm_num at hlt
  · cases hq : (check_page_break windowEnd700 670 30).1 with
    | false => rfl
    | true =>
      exfalso
      rcases h670.1.mp hq with ⟨pe, hpe, hlt⟩
      rw [hend] at hpe
      cases hpe
      norm_num at hlt

/-! ## Render fonts and text emission (src/render/context.rs)

`printpdf` layer calls are recorded as a trace of `PdfOp`s; the
`IndirectFontRef` embedding handle is modelled by the ordered glyph
list of the embedded subset.  The `unwrap()` panic on a missing
embedding handle is modelled as `Except.error`. -/

/-- `layout::Rgba`.  Modelled from the spec for the external crate:
four channels; `Rgba::black` is the zero-color default. -/
structure Rgba where
  r : ℚ
  g : ℚ
  b : ℚ
  a : ℚ
deriving DecidableEq, Repr

/-- Modelled from the spec: `Rgba::black` of the external `layout`
crate, the inherited default fill color. -/
def Rgba.black : Rgba := ⟨0, 0, 0, 1⟩

/-- Modelled from the spec: the font facet of `layout::Style` (name,
size, scaling), merged field-wise with the run's value winning. -/
structure FontStyle where
  name : Option String
  size : Option ℚ
  scaling : Option ℚ
deriving DecidableEq, Repr

/-- Modelled from the spec: `Font::merge` of the external `layout`
crate — each field falls back to the inherited default when unset. -/
def FontStyle.merge (s d : FontStyle) : FontStyle :=
  ⟨s.name <|> d.name, s.size <|> d.size, s.scaling <|> d.scaling⟩

/-- The parts of `layout::Style` the emission path reads. -/
structure Style where
  font : FontStyle
  color : Option Rgba
deriving DecidableEq, Repr

/-- `RenderFont` (lines 18-22), with the embedding handle modelled as
the ordered glyph list of the embedded subset blob. -/
structure RenderFontM where
  name : String
  glyph_collector : IndexSet
  font_ref : Option (List GlyphId)
deriving DecidableEq, Repr

/-- `RenderFonts::get_font_ref` (lines 99-113). -/
def get_font_ref (fonts : List RenderFontM) (n : String) : Option (List GlyphId) :=
  match fonts.find? (fun rf => rf.name == n) with
  | some rf => rf.font_ref
  | none => none

/-- `Font::subset_inner` (src/font/allsorts.rs lines 255-272),
restricted to its collector logic: an empty collector yields no subset;
otherwise the ordered glyph list goes to the external subsetter, whose
blob we model by that ordered list. -/
def subset_inner (glyph_collector : IndexSet) : Option (List GlyphId) :=
  if glyph_collector.isEmpty then none else some glyph_collector

/-- `RenderFonts::complete_and_write` (lines 78-97): a font whose
subset is `None` is skipped (`continue`), leaving `font_ref` unset; the
rest receive their embedding handle. -/
def complete_and_write (fonts : List RenderFontM) : List RenderFontM :=
  fonts.map (fun rf =>
    match subset_inner rf.glyph_collector with
    | none => rf
    | some blob => { rf with font_ref := some blob })

/-- The `printpdf` layer operations the emission path issues. -/
inductive PdfOp where
  | beginTextSection
  | setFillColor (r g b : ℚ)
  | setFont (handle : List GlyphId) (size : ℚ)
  | setTextCursor (x y : ℚ)
  | setTextScaling (s : ℚ)
  | writeCodepoint (g : GlyphId)
  | endTextSection
deriving DecidableEq, Repr

/-- Modelled from the spec: `TextPosition::ascent` of the external
`layout` crate — the portion of the height above the baseline. -/
def TextPosition.ascent (tp : TextPosition) : ℚ := tp.height - tp.depth

/-- Modelled from the spec: `GlyphPosition::h_advance_rest` of the
external `layout` crate — the advance remaining after the explicit
offset cursor move. -/
def GlyphPosition.h_advance_rest (p : GlyphPosition) : ℚ := p.h_advance - p.h_offset

/-- Modelled from the spec: `GlyphPosition::v_advance_rest` of the
external `layout` crate — the vertical advance remainder, flipped since
output text space is bottom-up. -/
def GlyphPosition.v_advance_rest (p : GlyphPosition) : ℚ := -(p.v_advance - p.v_offset)

/-- The per-glyph loop of `RenderContext::text` (lines 395-410):
an explicit cursor move only when an offset is non-zero, the glyph
codepoint, then the advance move. -/
def glyphOps (font_size scaling : ℚ) (p : GlyphPosition) : List PdfOp :=
  (if p.h_offset ≠ 0 ∨ p.v_offset ≠ 0 then
    [PdfOp.setTextCursor (p.h_offset * font_size * scaling) (p.v_offset * font_size)]
  else [])
  ++ [PdfOp.writeCodepoint p.glyph_index,
      PdfOp.setTextCursor (p.h_advance_rest * font_size * scaling)
        (p.v_advance_rest * font_size)]

/-- The state `RenderContext::text` reads and writes. -/
structure RenderState where
  page : PageState
  render_fonts : List RenderFontM
  defaultStyle : Style
deriving DecidableEq, Repr

/-- The `unwrap()` panic on `get_font_ref` returning `None`. -/
inductive EmitPanic where
  | missingFontRef
deriving DecidableEq, Repr

/-- The inline color toggle of `RenderContext::text` (lines 385-390):
a fill-color change is issued only when the run's style carries a color
different from the default black. -/
def colorToggleOps (color : Option Rgba) : List PdfOp :=
  match color with
  | some c => if c ≠ Rgba.black then [PdfOp.setFillColor c.r c.g c.b] else []
  | none => []

/-- The color restore of `RenderContext::text` (lines 413-417): under
the same condition, the fill color is reset to black right after the
glyph run. -/
def colorRestoreOps (color : Option Rgba) : List PdfOp :=
  match color with
  | some c => if c ≠ Rgba.black then [PdfOp.setFillColor 0 0 0] else []
  | none => []

/-- `RenderContext::text` (lines 349-419): early return on an empty
glyph list; early (warned) return when the merged style has no font
name or size; page-break check; three-step coordinate transform of the
baseline; panic if no embedding handle exists; otherwise the text
section is emitted with inline color toggling. -/
def textEmit (st : RenderState) (content_position : Offset) (style : Style)
    (tp : TextPosition) (position_is_baseline : Bool) :
    Except EmitPanic (RenderState × List PdfOp) :=
  if tp.positions.isEmpty then .ok (st, [])
  else
    let font := style.font.merge st.defaultStyle.font
    match font.name, font.size with
    | some name, some font_size =>
      let scaling := font.scaling.getD 1
      let pb := check_page_break st.page content_position.y (tp.height * font_size)
      let page' := pb.2
      let content_position := page_content_offset page' content_position
      let page_position := page'.page_margin.marginOffset content_position
      let page_position :=
        if position_is_baseline then page_position
        else ⟨page_position.x, page_position.y + tp.ascent * font_size⟩
      let page_position := swap_y page' page_position
      match get_font_ref st.render_fonts name with
      | none => .error .missingFontRef
      | some font_ref =>
        let ops :=
          [PdfOp.beginTextSection] ++ colorToggleOps style.color
          ++ [PdfOp.setFont font_ref font_size,
              PdfOp.setTextCursor page_position.x page_position.y,
              PdfOp.setTextScaling (100 * scaling)]
          ++ tp.positions.flatMap (glyphOps font_size scaling)
          ++ [PdfOp.setTextScaling 100] ++ colorRestoreOps style.color
          ++ [PdfOp.endTextSection]
        .ok ({ st with page := page' }, ops)
    | _, _ => .ok (st, [])

/-- C10: text emission with an empty glyph-position list returns
immediately: no page-break check, no embedding-handle lookup, no
output operations, and an unchanged state. -/
theorem text_empty_positions_noop (st : RenderState) (pos : Offset) (style : Style)
    (tp : TextPosition) (b : Bool) (h : tp.positions = []) :
    textEmit st pos style tp b = .ok (st, []) := by
  simp [textEmit, h]

/-- A page with no content window yet. -/
def pageBlank : PageState := ⟨⟨0, 0, 0, 0⟩, ⟨210, 297⟩, none, none, 0⟩

/-- A render state whose single font was registered (collector seeded)
but never finalized: no embedding handle exists. -/
def stUnfinalized : RenderState :=
  ⟨pageBlank, [⟨"Lato", renderFontNewCollector, none⟩], ⟨⟨none, none, none⟩, none⟩⟩

/-- A run style naming the font with a size, no color. -/
def latoStyle : Style := ⟨⟨some "Lato", some 12, none⟩, none⟩

/-- A shaped measurement with no glyphs. -/
def tpEmpty : TextPosition := ⟨0, 1, 0, []⟩

/-- C10, witness: with an empty glyph list, emission is a no-op even
though the named font has no embedding handle (no panic occurs and the
pagination state stays untouched). -/
theorem text_empty_positions_noop_witness :
    textEmit stUnfinalized ⟨10, 10⟩ latoStyle tpEmpty true = .ok (stUnfinalized, [])
    ∧ get_font_ref stUnfinalized.render_fonts "Lato" = none :=
  ⟨text_empty_positions_noop stUnfinalized ⟨10, 10⟩ latoStyle tpEmpty true rfl, rfl⟩

/-- C8: emitting a non-empty glyph run with a resolved font name and
size, when no embedding handle exists for that name (finalization never
ran for it, or — per `subset_inner`, which yields no subset for an
empty collector — no subset was produced), fails with the
internal-consistency panic rather than emitting anything. -/
theorem text_missing_font_ref_fails (st : RenderState) (pos : Offset) (style : Style)
    (tp : TextPosition) (b : Bool) (n : String) (fsize : ℚ)
    (hne : tp.positions ≠ [])
    (hname : (style.font.merge st.defaultStyle.font).name = some n)
    (hsize : (style.font.merge st.defaultStyle.font).size = some fsize)
    (href : get_font_ref st.render_fonts n = none) :
    textEmit st pos style tp b = .error .missingFontRef
    ∧ subset_inner [] = none := by
  refine ⟨?_, rfl⟩
  have hemp : tp.positions.isEmpty = false := by
    cases hq : tp.positions with
    | nil => exact absurd hq hne
    | cons a l => rfl
  simp only [textEmit, hemp, Bool.false_eq_true, if_false, hname, hsize, href]

/-- A one-glyph shaped measurement (local glyph id 0). -/
def tpOne : TextPosition := ⟨1, 1, 0, [⟨none, 0, 1, 0, 0, 0⟩]⟩

/-- C8, witness: emitting the one-glyph run with the never-finalized
font fails with the internal-consistency panic. -/
theorem text_missing_font_ref_fails_witness :
    textEmit stUnfinalized ⟨10, 10⟩ latoStyle tpOne true = .error .missingFontRef :=
  (text_missing_font_ref_fails stUnfinalized ⟨10, 10⟩ latoStyle tpOne true "Lato" 12
    (by simp [tpOne]) rfl rfl rfl).1

/-- Replay of the fill-color state over an operation trace: the color
state observed after the ops, starting from a given fill color. -/
def applyFill (c : ℚ × ℚ × ℚ) (op : PdfOp) : ℚ × ℚ × ℚ :=
  match op with
  | .setFillColor r g b => (r, g, b)
  | _ => c

theorem setFillColor_not_mem_glyphOps (fs sc r g b : ℚ) (p : GlyphPosition) :
    PdfOp.setFillColor r g b ∉ glyphOps fs sc p := by
  intro hmem
  simp only [glyphOps, List.mem_append, List.mem_cons] at hmem
  rcases hmem with h | h
  · split at h <;> simp at h
  · simp at h

theorem setFillColor_not_mem_flat (fs sc r g b : ℚ) (ps : List GlyphPosition) :
    PdfOp.setFillColor r g b ∉ ps.flatMap (glyphOps fs sc) := by
  intro hmem
  rcases List.mem_flatMap.mp hmem with ⟨p, _, hp⟩
  exact setFillColor_not_mem_glyphOps fs sc r g b p hp

theorem foldl_applyFill_of_no_fill (l : List PdfOp)
    (h : ∀ r g b, PdfOp.setFillColor r g b ∉ l) :
    ∀ c, List.foldl applyFill c l = c := by
  induction l with
  | nil => intro c; rfl
  | cons op l ih =>
    intro c
    have hop : applyFill c op = c := by
      cases op with
      | setFillColor r g b => exact absurd (List.mem_cons_self _ _) (h r g b)
      | beginTextSection => rfl
      | setFont f s => rfl
      | setTextCursor x y => rfl
      | setTextScaling s => rfl
      | writeCodepoint g => rfl
      | endTextSection => rfl
    rw [List.foldl_cons, hop]
    exact ih (fun r g b hm => h r g b (List.mem_cons_of_mem _ hm)) c

theorem foldl_applyFill_flat (fs sc : ℚ) (ps : List GlyphPosition) (c : ℚ × ℚ × ℚ) :
    List.foldl applyFill c (ps.flatMap (glyphOps fs sc)) = c :=
  foldl_applyFill_of_no_fill _ (fun r g b => setFillColor_not_mem_flat fs sc r g b ps) c

theorem fill_restore_suffix (Z R : List PdfOp)
    (hR : R = [PdfOp.setFillColor 0 0 0]) :
    ∃ pre, Z ++ [PdfOp.setTextScaling 100] ++ R ++ [PdfOp.endTextSection]
      = pre ++ [PdfOp.setTextScaling 100, PdfOp.setFillColor 0 0 0,
          PdfOp.endTextSection] :=
  ⟨Z, by subst hR; simp⟩

/-- C5: over any text emission, the fill color is toggled only when the
run's style color differs from the default black: replaying the fill
state over the emitted ops returns it to the default, so later runs are
unaffected; with no color (or black) no fill-color op is emitted at
all; with a non-black color the toggle to that color appears and the
restore to black is issued immediately after the glyph run, just before
the text section ends. -/
theorem text_color_restore (st : RenderState) (pos : Offset) (style : Style)
    (tp : TextPosition) (b : Bool) (st' : RenderState) (ops : List PdfOp)
    (hrun : textEmit st pos style tp b = .ok (st', ops)) :
    List.foldl applyFill (0, 0, 0) ops = (0, 0, 0)
    ∧ ((style.color = none ∨ style.color = some Rgba.black) →
        ∀ r g bl, PdfOp.setFillColor r g bl ∉ ops)
    ∧ (∀ c, style.color = some c → c ≠ Rgba.black →
        ops = [] ∨
        (PdfOp.setFillColor c.r c.g c.b ∈ ops
          ∧ ∃ pre, ops = pre ++ [PdfOp.setTextScaling 100, PdfOp.setFillColor 0 0 0,
              PdfOp.endTextSection])) := by
  by_cases hemp : tp.positions.isEmpty
  · have hops : ops = [] := by
      simp only [textEmit, hemp, if_true, Except.ok.injEq, Prod.mk.injEq] at hrun
      exact hrun.2.symm
    subst hops
    exact ⟨rfl, fun _ r g bl => List.not_mem_nil _, fun c _ _ => Or.inl rfl⟩
  · cases hn : (style.font.merge st.defaultStyle.font).name with
    | none =>
      have hops : ops = [] := by
        simp only [textEmit, hemp, Bool.false_eq_true, if_false, hn,
          Except.ok.injEq, Prod.mk.injEq] at hrun
        exact hrun.2.symm
      subst hops
      exact ⟨rfl, fun _ r g bl => List.not_mem_nil _, fun c _ _ => Or.inl rfl⟩
    | some n =>
      cases hs : (style.font.merge st.defaultStyle.font).size with
      | none =>
        have hops : ops = [] := by
          simp only [textEmit, hemp, Bool.false_eq_true, if_false, hn, hs,
            Except.ok.injEq, Prod.mk.injEq] at hrun
          exact hrun.2.symm
        subst hops
        exact ⟨rfl, fun _ r g bl => List.not_mem_nil _, fun c _ _ => Or.inl rfl⟩
      | some fsize =>
        cases href : get_font_ref st.render_fonts n with
        | none =>
          exfalso
          simp only [textEmit, hemp, Bool.false_eq_true, if_false, hn, hs, href] at hrun
          exact Except.noConfusion hrun
        | some fr =>
          simp only [textEmit, hemp, Bool.false_eq_true, if_false, hn, hs, href,
            Except.ok.injEq, Prod.mk.injEq] at hrun
          obtain ⟨-, hops⟩ := hrun
          subst hops
          refine ⟨?_, ?_, ?_⟩
          · rcases hc : style.color with _ | c
            · simp [colorToggleOps, colorRestoreOps, List.foldl_append, applyFill,
                foldl_applyFill_flat]
            · by_cases hbk : c = Rgba.black
              · simp [colorToggleOps, colorRestoreOps, hbk, List.foldl_append,
                  applyFill, foldl_applyFill_flat]
              · simp [colorToggleOps, colorRestoreOps, hbk, List.foldl_append,
                  applyFill, foldl_applyFill_flat]
          · intro hcol r g bl hmem
            have htog : colorToggleOps style.color = [] := by
              rcases hcol with hcol | hcol <;> simp [colorToggleOps, hcol, Rgba.black]
            have hres : colorRestoreOps style.color = [] := by
              rcases hcol with hcol | hcol <;> simp [colorRestoreOps, hcol, Rgba.black]
            rw [htog, hres] at hmem
            simp at hmem
            rcases hmem with ⟨p, -, hp⟩
            exact setFillColor_not_mem_glyphOps _ _ r g bl p hp
          · intro c hcol hbk
            refine Or.inr ⟨?_, ?_⟩
            · simp [colorToggleOps, hcol, hbk]
            · exact fill_restore_suffix _ _
                (by simp [colorRestoreOps, hcol, hbk])

/-- A degenerate page (all dimensions zero) keeping witness arithmetic
trivial. -/
def pageZero : PageState := ⟨⟨0, 0, 0, 0⟩, ⟨0, 0⟩, none, none, 0⟩

/-- A render state whose single font has been finalized (its embedding
handle exists). -/
def stFinalized : RenderState :=
  ⟨pageZero, [⟨"Lato", [0, 4], some [0, 4]⟩], ⟨⟨none, none, none⟩, none⟩⟩

/-- A run style with a red (non-black) color. -/
def redStyle : Style := ⟨⟨some "Lato", some 1, none⟩, some ⟨1, 0, 0, 1⟩⟩

/-- A one-glyph run with zero metrics. -/
def tpRed : TextPosition := ⟨0, 0, 0, [⟨none, 1, 0, 0, 0, 0⟩]⟩

/-- The state after emitting `tpRed` on `stFinalized` (the content
window got established). -/
def stFinalizedAfter : RenderState :=
  ⟨⟨⟨0, 0, 0, 0⟩, ⟨0, 0⟩, some ⟨0, 0⟩, some ⟨0, 0⟩, 0⟩,
   [⟨"Lato", [0, 4], some [0, 4]⟩], ⟨⟨none, none, none⟩, none⟩⟩

/-- The operation trace emitted for the red run. -/
def redOps : List PdfOp :=
  [.beginTextSection, .setFillColor 1 0 0, .setFont [0, 4] 1, .setTextCursor 0 0,
   .setTextScaling 100, .writeCodepoint 1, .setTextCursor 0 0, .setTextScaling 100,
   .setFillColor 0 0 0, .endTextSection]

/-- C5, witness: the concrete red run toggles the fill color and the
replayed fill state over its trace ends back at the default black. -/
theorem text_color_restore_witness :
    List.foldl applyFill (0, 0, 0) redOps = (0, 0, 0)
    ∧ PdfOp.setFillColor 1 0 0 ∈ redOps := by
  have hrun : textEmit stFinalized ⟨0, 0⟩ redStyle tpRed true
      = .ok (stFinalizedAfter, redOps) := by
    norm_num [textEmit, stFinalized, redStyle, tpRed, stFinalizedAfter, redOps, pageZero,
      check_page_break, set_page_offsets, new_page_internal, page_content_offset, swap_y,
      Quad.marginOffset, Quad.totalWidth, Quad.totalHeight, get_font_ref, colorToggleOps,
      colorRestoreOps, glyphOps, GlyphPosition.h_advance_rest, GlyphPosition.v_advance_rest,
      FontStyle.merge, Rgba.black, TextPosition.ascent]
  obtain ⟨h1, -, h3⟩ := text_color_restore stFinalized ⟨0, 0⟩ redStyle tpRed true
    stFinalizedAfter redOps hrun
  have h4 := (h3 ⟨1, 0, 0, 1⟩ rfl (by simp [Rgba.black])).resolve_left
    (by simp [redOps])
  exact ⟨h1, h4.1⟩

/-! ## Typesetting against the shaping collaborator
(src/font/allsorts.rs, `Font::typeset_inner`)

The allsorts shaping calls are abstracted as a `ShapingEngine` record:
`shape` returns either the shaped infos or — mirroring
`allsorts::Font::shape`'s `Err((error, shapes))` — an error *paired
with* the best-effort partial infos. -/

/-- A shaped glyph info (glyph id plus its first unicode). -/
structure ShapeInfo where
  glyph_index : GlyphId
  unicode : Option Nat
deriving DecidableEq, Repr

/-- Raw glyph layout numbers in font units (`i32`/`u16` in allsorts). -/
structure RawGlyphPos where
  hori_advance : ℤ
  vert_advance : ℤ
  x_offset : ℤ
  y_offset : ℤ
deriving DecidableEq, Repr

/-- The shaping collaborator consumed by `typeset_inner`. -/
structure ShapingEngine where
  mapGlyphs : String → List GlyphId
  shape : List GlyphId → Except (String × List ShapeInfo) (List ShapeInfo)
  glyphPositions : List ShapeInfo → Except FcError (List RawGlyphPos)
  unitsPerEm : ℚ
  ascender : ℤ
  descender : ℤ

/-- `Font::typeset_inner` (lines 183-236): map text to glyphs, shape —
recovering the partial shapes on failure (`unwrap_or_else`), compute
layout positions (a fallible step whose error *is* propagated),
normalize everything by units-per-em, and fold the width. -/
def typeset_inner (eng : ShapingEngine) (text : String) :
    Except FcError TextPosition :=
  let glyphs := eng.mapGlyphs text
  let shapes := match eng.shape glyphs with
    | .ok s => s
    | .error pr => pr.2
  match eng.glyphPositions shapes with
  | .error e => .error e
  | .ok poss =>
    let upm := eng.unitsPerEm
    let ascender := (eng.ascender : ℚ) / upm
    let descender := -((eng.descender : ℚ) / upm)
    let positions := List.zipWith
      (fun (info : ShapeInfo) (p : RawGlyphPos) =>
        GlyphPosition.mk info.unicode info.glyph_index
          ((p.hori_advance : ℚ) / upm) ((p.vert_advance : ℚ) / upm)
          ((p.x_offset : ℚ) / upm) ((p.y_offset : ℚ) / upm))
      shapes poss
    let width := positions.foldl (fun sum p => sum + p.h_advance) 0
    .ok ⟨width, ascender + descender, descender, positions⟩

/-- Success test on a typeset result. -/
def typesetOk : Except FcError TextPosition → Bool
  | .ok _ => true
  | .error _ => false

/-- C6: when shaping reports a partial failure, `typeset_inner`
proceeds with the partial glyph sequence — its result is exactly the
result it would give had shaping fully succeeded with those glyphs (the
shaping error is never propagated) — and, whenever the layout step
accepts the partial shapes, the call still returns a successful
`TextPosition`. -/
theorem typeset_partial_shaping (eng : ShapingEngine) (text : String)
    (e : String) (partShapes : List ShapeInfo)
    (hsh : eng.shape (eng.mapGlyphs text) = .error (e, partShapes)) :
    typeset_inner eng text
      = typeset_inner { eng with shape := fun _ => .ok partShapes } text
    ∧ (∀ poss, eng.glyphPositions partShapes = .ok poss →
        typesetOk (typeset_inner eng text) = true) := by
  constructor
  · simp only [typeset_inner, hsh]
  · intro poss hpos
    simp only [typeset_inner, hsh, hpos, typesetOk]

/-- A concrete shaping engine whose shaping always partially fails,
yielding one best-effort glyph. -/
def tofuEngine : ShapingEngine :=
  ⟨fun _ => [3],
   fun _ => .error ("unsupported cluster", [⟨3, some 65⟩]),
   fun l => .ok (l.map (fun _ => ⟨10, 0, 0, 0⟩)),
   1000, 800, -200⟩

/-- C6, witness: the concrete partially-failing engine still typesets
successfully, with the best-effort glyph sequence. -/
theorem typeset_partial_shaping_witness :
    typeset_inner tofuEngine "A"
      = typeset_inner { tofuEngine with
          shape := fun _ => .ok [⟨3, some 65⟩] } "A"
    ∧ typesetOk (typeset_inner tofuEngine "A") = true := by
  obtain ⟨h1, h2⟩ :=
    typeset_partial_shaping tofuEngine "A" "unsupported cluster" [⟨3, some 65⟩] rfl
  exact ⟨h1, h2 [⟨10, 0, 0, 0⟩] rfl⟩

end PdfRender
